import Mathlib

/-!
Verification of the Shiritori word-game core: the distance-bucket
(BK-style) fuzzy word index (`src/fuzzy_index.rs`), its persistence
wrapper, and the per-room majority-vote coordinator (`src/actions.rs`,
`src/room.rs`), shallowly embedded in Lean.

Rust `String` values are modelled as `List Char` (the sequence of
Unicode scalar values); `str::len` (the UTF-8 byte length) is modelled
by `byteLen` below.
-/

namespace Shiritori

/-- UTF-8 byte length of a string, as Rust's `str::len` returns it. -/
def byteLen (s : List Char) : Nat := (s.map Char.utf8Size).sum

/-- The `levenshtein` function of `src/fuzzy_index.rs` (lines 211-227),
embedded faithfully: the cost row is allocated with `b.len() + 1`
entries (UTF-8 *byte* length) and the final answer is read at index
`b.len()`, while both loops enumerate `chars()` (Unicode scalars). -/
def levenshtein (a b : List Char) : Nat :=
  let n := byteLen b
  let start : List Nat := List.range (n + 1)
  let final : List Nat :=
    a.enum.foldl
      (fun costs ica =>
        let i := ica.1
        let ca := ica.2
        let costs := costs.set 0 (i + 1)
        let step :=
          b.enum.foldl
            (fun acc jcb =>
              let j := jcb.1
              let cb := jcb.2
              let costs := acc.1
              let lastCost := acc.2
              let newCost :=
                if ca = cb then lastCost
                else 1 + Nat.min lastCost (Nat.min (costs.getD j 0) (costs.getD (j + 1) 0))
              (costs.set (j + 1) newCost, costs.getD (j + 1) 0))
            (costs, i)
        step.1)
      start
  final.getD n 0

/-- Modelled from the spec: the classic Levenshtein edit distance over
Unicode scalar sequences — "minimum single-character
insert/delete/substitute operations to transform one string into
another" (spec glossary).  Used only to compare the repository's
`levenshtein` against the spec's definition. -/
def specEditDistance : List Char → List Char → Nat
  | [], ys => ys.length
  | x :: xs, [] => (x :: xs).length
  | x :: xs, y :: ys =>
    Nat.min (specEditDistance xs ys + (if x = y then 0 else 1))
      (Nat.min (specEditDistance (x :: xs) ys + 1) (specEditDistance xs (y :: ys) + 1))
  termination_by a b => a.length + b.length
  decreasing_by all_goals (simp only [List.length_cons]; omega)

/-! ## The distance-bucket tree (`Node` in `src/fuzzy_index.rs`)

A node owns one word and a map from distance keys to child nodes
(`children: HashMap<u32, Node>`).  The map is modelled as an
association list with unique keys kept in insertion order
(`NodeList`); `HashMap` iteration order is unspecified in Rust, so
list order carries no meaning beyond determinising the model. -/

mutual

inductive Node where
  | mk (word : List Char) (children : NodeList)

inductive NodeList where
  | nil
  | cons (key : Nat) (child : Node) (rest : NodeList)

end

def Node.word : Node → List Char
  | .mk w _ => w

def Node.children : Node → NodeList
  | .mk _ cs => cs

/-- `Node::new` (`src/fuzzy_index.rs` line 18). -/
def Node.new (word : List Char) : Node := .mk word .nil

mutual

/-- `Node::insert` (`src/fuzzy_index.rs` lines 25-32): compute the
distance of the new word to this node's word; recurse into the child
stored under that key, or attach a fresh leaf under it. -/
def Node.insert : Node → List Char → Node
  | .mk w cs, word => .mk w (NodeList.insert cs (levenshtein word w) word)

/-- The `children.get_mut` / `children.insert` part of `Node::insert`,
on the association-list model of the child map. -/
def NodeList.insert : NodeList → Nat → List Char → NodeList
  | .nil, dist, word => .cons dist (Node.new word) .nil
  | .cons k c rest, dist, word =>
    if k = dist then .cons k (Node.insert c word) rest
    else .cons k c (NodeList.insert rest dist word)

end

mutual

/-- `Node::search_fuzzy` (`src/fuzzy_index.rs` lines 34-48): emit this
node's word when its distance to the query is within `max_dist`, and
descend only into children whose key lies in
`[dist - max_dist, dist + max_dist]` (saturating arithmetic, which is
exactly `Nat` subtraction). -/
def Node.searchFuzzy : Node → List Char → Nat → List (List Char)
  | .mk w cs, query, maxDist =>
    let dist := levenshtein query w
    let here := if dist ≤ maxDist then [w] else []
    here ++ NodeList.searchFuzzy cs query maxDist (dist - maxDist) (dist + maxDist)

def NodeList.searchFuzzy : NodeList → List Char → Nat → Nat → Nat → List (List Char)
  | .nil, _, _, _, _ => []
  | .cons k c rest, query, maxDist, lo, hi =>
    (if lo ≤ k ∧ k ≤ hi then Node.searchFuzzy c query maxDist else [])
      ++ NodeList.searchFuzzy rest query maxDist lo hi

end

/-- `MatchMode` (`src/fuzzy_index.rs` lines 73-79). -/
inductive MatchMode where
  | Prefix
  | Suffix
  | Substring
  | Exact
deriving DecidableEq

/-- Rust's `str::contains` with a string pattern: the query occurs as
a contiguous character subsequence. -/
def isSubstringOf (query w : List Char) : Bool :=
  w.tails.any fun t => query.isPrefixOf t

/-- The string predicate applied per node by `Node::search_match`
(`src/fuzzy_index.rs` lines 51-56). -/
def matchPred (mode : MatchMode) (query w : List Char) : Bool :=
  match mode with
  | .Prefix => query.isPrefixOf w
  | .Suffix => query.isSuffixOf w
  | .Substring => isSubstringOf query w
  | .Exact => w = query

mutual

/-- `Node::search_match` (`src/fuzzy_index.rs` lines 50-65): unpruned
traversal emitting every word satisfying the mode's predicate. -/
def Node.searchMatch : Node → List Char → MatchMode → List (List Char)
  | .mk w cs, query, mode =>
    (if matchPred mode query w then [w] else [])
      ++ NodeList.searchMatch cs query mode

def NodeList.searchMatch : NodeList → List Char → MatchMode → List (List Char)
  | .nil, _, _ => []
  | .cons _ c rest, query, mode =>
    Node.searchMatch c query mode ++ NodeList.searchMatch rest query mode

end

mutual

/-- All words stored in a subtree, root first (for brute-force
comparison with the searches). -/
def Node.words : Node → List (List Char)
  | .mk w cs => w :: NodeList.words cs

def NodeList.words : NodeList → List (List Char)
  | .nil => []
  | .cons _ c rest => Node.words c ++ NodeList.words rest

end

/-! ## `FuzzyIndex` (`src/fuzzy_index.rs` lines 68-152) -/

/-- `FuzzyIndex { root: Option<Node> }`. -/
structure FuzzyIndex where
  root : Option Node

/-- `FuzzyIndex::new` (line 94). -/
def FuzzyIndex.new : FuzzyIndex := ⟨none⟩

/-- `FuzzyIndex::add_word` (lines 99-106). -/
def FuzzyIndex.addWord (idx : FuzzyIndex) (word : List Char) : FuzzyIndex :=
  match idx.root with
  | some root => ⟨some (root.insert word)⟩
  | none => ⟨some (Node.new word)⟩

/-- `FuzzyIndex::add_words` (lines 109-117): inserts each word in
order; the Rust function returns `()`. -/
def FuzzyIndex.addWords (idx : FuzzyIndex) (words : List (List Char)) : FuzzyIndex :=
  words.foldl FuzzyIndex.addWord idx

/-- `FuzzyIndex::search_fuzzy` (lines 120-126). -/
def FuzzyIndex.searchFuzzy (idx : FuzzyIndex) (query : List Char) (maxDist : Nat) :
    List (List Char) :=
  match idx.root with
  | some root => root.searchFuzzy query maxDist
  | none => []

/-- `FuzzyIndex::search_match` (lines 129-135). -/
def FuzzyIndex.searchMatch (idx : FuzzyIndex) (query : List Char) (mode : MatchMode) :
    List (List Char) :=
  match idx.root with
  | some root => root.searchMatch query mode
  | none => []

/-- All words stored in the index, for brute-force comparison. -/
def FuzzyIndex.words (idx : FuzzyIndex) : List (List Char) :=
  match idx.root with
  | some root => root.words
  | none => []

/-- `IndexError` (`src/fuzzy_index.rs` lines 81-91). -/
inductive IndexError where
  | io
  | encode
  | decode
deriving DecidableEq

/-! ### Persistence

`FuzzyIndex::save`/`load` delegate the byte format to the external
`bincode` crate (standard config) and the file system to `std::fs`.
Modelled from the spec: "index persists to one file per session via a
binary encode/decode codec" — the codec below is a token-stream
encode/decode pair standing in for `bincode`, and a file is an
`Option (List Nat)` (`none` = missing file, a token list = contents,
possibly corrupt). -/

mutual

def Node.encode : Node → List Nat
  | .mk w cs => (w.length :: w.map Char.toNat) ++ NodeList.encode cs

def NodeList.encode : NodeList → List Nat
  | .nil => 0 :: []
  | .cons k c rest =>
    match NodeList.encode rest with
    | [] => []
    | n :: tail => (n + 1) :: (k :: Node.encode c) ++ tail

end

/-- Serialized form of the whole index: `Option` tag then the root. -/
def FuzzyIndex.save (idx : FuzzyIndex) : List Nat :=
  match idx.root with
  | none => [0]
  | some root => 1 :: root.encode

def decodeStr : List Nat → Except IndexError (List Char × List Nat)
  | [] => .error .decode
  | len :: rest =>
    if len ≤ rest.length then
      .ok ((rest.take len).map Char.ofNat, rest.drop len)
    else .error .decode

mutual

def decodeNode (fuel : Nat) (bs : List Nat) : Except IndexError (Node × List Nat) :=
  match fuel with
  | 0 => .error .decode
  | fuel + 1 =>
    match decodeStr bs with
    | .error e => .error e
    | .ok (w, rest) =>
      match rest with
      | [] => .error .decode
      | count :: rest =>
        match decodeChildren fuel count rest with
        | .error e => .error e
        | .ok (cs, rest) => .ok (.mk w cs, rest)

def decodeChildren (fuel count : Nat) (bs : List Nat) :
    Except IndexError (NodeList × List Nat) :=
  match fuel with
  | 0 => .error .decode
  | fuel + 1 =>
    match count with
    | 0 => .ok (.nil, bs)
    | count + 1 =>
      match bs with
      | [] => .error .decode
      | k :: rest =>
        match decodeNode fuel rest with
        | .error e => .error e
        | .ok (c, rest) =>
          match decodeChildren fuel count rest with
          | .error e => .error e
          | .ok (cs, rest) => .ok (.cons k c cs, rest)

end

/-- `FuzzyIndex::load` (lines 146-151): read the file (an absent file
is an IO error), then decode; either failure is returned as an error,
never swallowed. -/
def FuzzyIndex.load (file : Option (List Nat)) : Except IndexError FuzzyIndex :=
  match file with
  | none => .error .io
  | some bs =>
    match bs with
    | 0 :: _ => .ok ⟨none⟩
    | 1 :: rest =>
      match decodeNode (rest.length + 1) rest with
      | .error e => .error e
      | .ok (root, _) => .ok ⟨some root⟩
    | _ => .error .decode

/-! ## `SharedFuzzyIndex` (`src/fuzzy_index.rs` lines 154-208)

The wrapper puts one `FuzzyIndex` behind an `Arc<RwLock<_>>`; every
operation forwards to the inner index under the lock, so its
sequential behaviour is that of the inner index. -/

structure SharedFuzzyIndex where
  inner : FuzzyIndex

def SharedFuzzyIndex.new : SharedFuzzyIndex := ⟨FuzzyIndex.new⟩

def SharedFuzzyIndex.addWord (s : SharedFuzzyIndex) (word : List Char) : SharedFuzzyIndex :=
  ⟨s.inner.addWord word⟩

/-- `SharedFuzzyIndex::add_words` (lines 173-180): forwards to
`FuzzyIndex::add_words`; returns `()` in Rust, so the model returns
only the updated index. -/
def SharedFuzzyIndex.addWords (s : SharedFuzzyIndex) (words : List (List Char)) :
    SharedFuzzyIndex := ⟨s.inner.addWords words⟩

def SharedFuzzyIndex.searchFuzzy (s : SharedFuzzyIndex) (query : List Char) (maxDist : Nat) :
    List (List Char) := s.inner.searchFuzzy query maxDist

def SharedFuzzyIndex.searchMatch (s : SharedFuzzyIndex) (query : List Char) (mode : MatchMode) :
    List (List Char) := s.inner.searchMatch query mode

/-- `SharedFuzzyIndex::load` (lines 202-207): `FuzzyIndex::load(path)?`
— the error is propagated to the caller with `?`, not replaced by an
empty index. -/
def SharedFuzzyIndex.load (file : Option (List Nat)) :
    Except IndexError SharedFuzzyIndex :=
  match FuzzyIndex.load file with
  | .error e => .error e
  | .ok idx => .ok ⟨idx⟩

/-! ## Room state and the vote coordinator
(`src/room.rs`, `src/message.rs`, `src/actions.rs`)

User ids (`u64`) are modelled as `Nat`; the two `HashSet<u64>` ballot
sets as `Finset ℕ`.  The render-only `build()` string and the external
transport calls (`send`/`edit`/`delete`/`response`) are omitted: they
produce no state.  All functions below assume the room exists — in the
source, `try_word` and `vote` first check `manager.has_room` and
return without touching anything when it fails. -/

/-- `TryMessageBuilder` (`src/message.rs` lines 3-24), the render
snapshot stored inside the vote state. -/
structure TryMessageBuilder where
  user : Option Nat
  word : Option (List Char)
  mean : Option (List Char)
  all_users : List Nat
  vote_good : List Nat
  vote_bad : List Nat
  like_words : Option (List (List Char))
deriving DecidableEq

def TryMessageBuilder.default : TryMessageBuilder :=
  { user := none, word := none, mean := none, all_users := [],
    vote_good := [], vote_bad := [], like_words := none }

/-- `TryMessageBuilder::init` (`src/message.rs` lines 17-24). -/
def TryMessageBuilder.init (uid : Nat) (word : List Char) (users : List Nat) :
    TryMessageBuilder :=
  { TryMessageBuilder.default with
      user := some uid, word := some word, all_users := users }

/-- `VoteState` (`src/room.rs` lines 10-24). -/
structure VoteState where
  target_user : Option Nat
  target_word : Option (List Char)
  vote_message : Option Nat
  good_users : Finset ℕ
  bad_users : Finset ℕ
  message_builder : TryMessageBuilder
deriving DecidableEq

/-- The `Default` derive of `VoteState`. -/
def VoteState.default : VoteState :=
  { target_user := none, target_word := none, vote_message := none,
    good_users := ∅, bad_users := ∅,
    message_builder := TryMessageBuilder.default }

/-- `RoomState` (`src/room.rs` lines 51-59).  `index` is `None` until
the first `get_index_or_new`. -/
structure RoomState where
  room_id : Nat
  user_queue : List Nat
  vote_state : VoteState
  index : Option SharedFuzzyIndex

/-- `RoomState::new` (`src/room.rs` lines 74-81). -/
def RoomState.new (roomId : Nat) : RoomState :=
  { room_id := roomId, user_queue := [], vote_state := VoteState.default,
    index := none }

/-- The index produced by `RoomState::load_words` (`src/room.rs` lines
95-115): `SharedFuzzyIndex::load`, with any failure replaced by a
fresh empty index (and a logged warning). -/
def loadWordsIndex (file : Option (List Nat)) : SharedFuzzyIndex :=
  match SharedFuzzyIndex.load file with
  | .ok idx => idx
  | .error _ => SharedFuzzyIndex.new

/-- `RoomState::load_words` sets `self.index` to the loaded (or fresh)
index. -/
def RoomState.loadWords (r : RoomState) (file : Option (List Nat)) : RoomState :=
  { r with index := some (loadWordsIndex file) }

/-- `RoomState::get_index_or_new` (`src/room.rs` lines 83-93): return
the already-loaded index, or load it (falling back to empty) first.
`file` stands for the contents of the room's backing word file. -/
def RoomState.getIndexOrNew (r : RoomState) (file : Option (List Nat)) :
    SharedFuzzyIndex × RoomState :=
  match r.index with
  | some idx => (idx, r)
  | none =>
    let r := r.loadWords file
    (loadWordsIndex file, r)

/-- The state effect of `try_word` (`src/actions.rs` lines 22-104): a
fresh `VoteState` is installed with the proposer, the word, empty
ballot sets and the builder initialised with the turn-queue snapshot
minus the proposer; the vote message id is then recorded.  The two
enrichment tasks also load the room index (`get_index_or_new`); their
remaining effect is limited to the render-only `like_words` / `mean`
fields of the builder (guarded by a staleness check) and is omitted
here. -/
def tryWord (file : Option (List Nat)) (r : RoomState) (uid : Nat)
    (word : List Char) (mid : Nat) : RoomState :=
  let voter := r.user_queue.filter (fun id => id ≠ uid)
  let vs : VoteState :=
    { target_user := some uid, target_word := some word, vote_message := none,
      good_users := ∅, bad_users := ∅,
      message_builder := TryMessageBuilder.init uid word voter }
  let r := { r with vote_state := vs }
  let r := { r with vote_state := { r.vote_state with vote_message := some mid } }
  (r.getIndexOrNew file).2

/-- `vote` (`src/actions.rs` lines 106-224), the ballot-cast /
tally / resolution transition.  Steps mirror the source: (2) bail out
unless a vote message and a target word exist and the caster is not
the proposer; (3) update the ballot sets; (4) compare the tallies with
`majority = user_queue.len() / 2 + 1`; on a good majority rotate the
queue head to the tail, reset the vote state and commit the word to
the index; on a bad majority only reset the vote state; otherwise copy
the tallies into the render builder. -/
def vote (file : Option (List Nat)) (r : RoomState) (uid : Nat)
    (good cancel : Bool) : RoomState :=
  match r.vote_state.vote_message, r.vote_state.target_word with
  | some _mid, some word =>
    if r.vote_state.target_user = some uid then r
    else
      let vs := r.vote_state
      let vs :=
        if cancel then
          { vs with good_users := vs.good_users.erase uid,
                    bad_users := vs.bad_users.erase uid }
        else if good then
          { vs with good_users := insert uid vs.good_users,
                    bad_users := vs.bad_users.erase uid }
        else
          { vs with bad_users := insert uid vs.bad_users,
                    good_users := vs.good_users.erase uid }
      let r := { r with vote_state := vs }
      let total := r.user_queue.length
      let goodCount := r.vote_state.good_users.card
      let badCount := r.vote_state.bad_users.card
      let majority := total / 2 + 1
      if goodCount ≥ majority then
        let r :=
          if r.user_queue.length > 0 then
            { r with user_queue := r.user_queue.rotate 1 }
          else r
        let r := { r with vote_state := VoteState.default }
        let p := r.getIndexOrNew file
        { p.2 with index := some (p.1.addWord word) }
      else if badCount ≥ majority then
        { r with vote_state := VoteState.default }
      else
        let b := vs.message_builder
        let b := { b with vote_good := vs.good_users.sort (· ≤ ·),
                          vote_bad := vs.bad_users.sort (· ≤ ·) }
        { r with vote_state := { vs with message_builder := b } }
  | _, _ => r

/-! ## The metric (BK-tree) key invariant -/

mutual

/-- Every child edge of the tree is keyed by the `levenshtein`
distance (the repository's distance function) between the child's word
and its parent's word. -/
inductive Node.WellKeyed : Node → Prop where
  | mk (w : List Char) (cs : NodeList) :
      NodeList.WellKeyed w cs → Node.WellKeyed (.mk w cs)

/-- `NodeList.WellKeyed w cs`: every entry `(k, c)` of the child map
`cs` of a node whose word is `w` satisfies
`levenshtein c.word w = k`, and `c` is itself well-keyed. -/
inductive NodeList.WellKeyed : List Char → NodeList → Prop where
  | nil (w : List Char) : NodeList.WellKeyed w .nil
  | cons (w : List Char) (k : Nat) (c : Node) (rest : NodeList) :
      levenshtein c.word w = k → Node.WellKeyed c →
      NodeList.WellKeyed w rest → NodeList.WellKeyed w (.cons k c rest)

end

/-- The key invariant lifted to a whole index. -/
def FuzzyIndex.WellKeyed (idx : FuzzyIndex) : Prop :=
  ∀ root, idx.root = some root → root.WellKeyed

/-! ## Concrete scenario states and statement vocabulary -/

/-- The word of the spec's accept/reject scenarios. -/
def apple : List Char := "apple".toList

/-- A room with turn queue `[1, 2, 3]`, no active vote, index not yet
loaded, and no backing word file on disk. -/
def scenarioRoom : RoomState :=
  { room_id := 1, user_queue := [1, 2, 3], vote_state := VoteState.default,
    index := none }

/-- Participant 1 has proposed "apple" (vote message id 100). -/
def proposedRoom : RoomState := tryWord none scenarioRoom 1 apple 100

/-- Participants 2 and 3 have both voted good on "apple". -/
def acceptRoom : RoomState :=
  vote none (vote none proposedRoom 2 true false) 3 true false

/-- Participants 2 and 3 have both voted bad on "apple". -/
def rejectRoom : RoomState :=
  vote none (vote none proposedRoom 2 false false) 3 false false

/-- Participant 2 voted good, then voted bad. -/
def goodThenBadRoom : RoomState :=
  vote none (vote none proposedRoom 2 true false) 2 false false

/-- The good-ballot set that step 3 of `vote` produces from `G`. -/
def ballotGood (G : Finset ℕ) (uid : ℕ) (good cancel : Bool) : Finset ℕ :=
  if cancel then G.erase uid else if good then insert uid G else G.erase uid

/-- The bad-ballot set that step 3 of `vote` produces from `B`. -/
def ballotBad (B : Finset ℕ) (uid : ℕ) (good cancel : Bool) : Finset ℕ :=
  if cancel then B.erase uid else if good then B.erase uid else insert uid B

/-- Index holding "aaaa" and the two-byte one-character word "é". -/
def bugIdx : FuzzyIndex :=
  FuzzyIndex.addWords FuzzyIndex.new ["aaaa".toList, ['é']]

/-- The index of the round-trip scenario: words "cat", "cats", "dog". -/
def catsIdx : FuzzyIndex :=
  FuzzyIndex.addWords FuzzyIndex.new ["cat".toList, "cats".toList, "dog".toList]

/-! # Theorems -/

/-- `Node::insert` never changes the word held at the node itself. -/
theorem Node.word_insert (n : Node) (word : List Char) :
    (n.insert word).word = n.word := by
  cases n
  rfl

theorem Node.WellKeyed.newNode (word : List Char) : (Node.new word).WellKeyed :=
  .mk word .nil (.nil word)

mutual

theorem Node.WellKeyed.insertNode : ∀ (n : Node) (word : List Char),
    n.WellKeyed → (n.insert word).WellKeyed
  | .mk w cs, word, .mk _ _ h =>
    .mk w _ (NodeList.WellKeyed.insertChild w cs word h)

theorem NodeList.WellKeyed.insertChild : ∀ (w : List Char) (cs : NodeList)
    (word : List Char), NodeList.WellKeyed w cs →
    NodeList.WellKeyed w (NodeList.insert cs (levenshtein word w) word)
  | w, .nil, word, _ =>
    .cons w (levenshtein word w) (Node.new word) .nil rfl
      (Node.WellKeyed.newNode word) (.nil w)
  | w, .cons k c rest, word, .cons _ _ _ _ hk hc hrest => by
    rw [NodeList.insert]
    split
    case isTrue heq =>
      exact .cons w k (c.insert word) rest
        (by rw [Node.word_insert]; exact hk)
        (Node.WellKeyed.insertNode c word hc) hrest
    case isFalse hne =>
      exact .cons w k c _ hk hc
        (NodeList.WellKeyed.insertChild w rest word hrest)

end

theorem FuzzyIndex.WellKeyed.newIndex : FuzzyIndex.new.WellKeyed := by
  intro root h
  cases h

theorem FuzzyIndex.WellKeyed.addWord {idx : FuzzyIndex} (word : List Char)
    (h : idx.WellKeyed) : (idx.addWord word).WellKeyed := by
  intro root hr
  cases hidx : idx.root with
  | some r0 =>
    have : (idx.addWord word).root = some (r0.insert word) := by
      simp [FuzzyIndex.addWord, hidx]
    rw [this] at hr
    cases hr
    exact Node.WellKeyed.insertNode r0 word (h r0 hidx)
  | none =>
    have : (idx.addWord word).root = some (Node.new word) := by
      simp [FuzzyIndex.addWord, hidx]
    rw [this] at hr
    cases hr
    exact Node.WellKeyed.newNode word

theorem FuzzyIndex.WellKeyed.addWords {idx : FuzzyIndex}
    (words : List (List Char)) (h : idx.WellKeyed) :
    (idx.addWords words).WellKeyed := by
  induction words generalizing idx with
  | nil => exact h
  | cons w ws ih =>
    exact ih (FuzzyIndex.WellKeyed.addWord w h)

/-! ## Claim theorems -/

/-- C3: the claim says `levenshtein` computes the classic Levenshtein
edit distance over Unicode scalar sequences.  It does not: on
`a = b = "あ"` (one scalar, three UTF-8 bytes) it returns 3 — the byte
length of `b`, because the cost row is sized and finally indexed by
`b.len()` (bytes) while the loops advance per `char` — whereas the
distance of a string to itself is 0. -/
theorem levenshtein_byte_length_bug :
    levenshtein ['あ'] ['あ'] = 3 ∧
    byteLen ['あ'] = 3 ∧
    specEditDistance ['あ'] ['あ'] = 0 := by
  refine ⟨by decide, by decide, by simp [specEditDistance]⟩

/-- C1: the claim says `search_fuzzy(q, k)` always equals a
brute-force scan by edit distance over all inserted words.  With the
words "aaaa" and "é" inserted, the query "aaaa" and bound 2, the tree
search returns only "aaaa", while the brute-force scan with the
repository's own `levenshtein` also returns "é" (its buggy distance to
the query is `byteLen "é" = 2`): the pruning window, computed at the
ASCII root, excludes the child keyed 4.  The classic-distance reading
fails as well: an index holding only "é" does not find "é" at bound 0
although its true distance to itself is 0. -/
theorem fuzzy_search_misses_brute_force_match :
    bugIdx.searchFuzzy "aaaa".toList 2 = ["aaaa".toList] ∧
    bugIdx.words.filter
        (fun w => decide (levenshtein "aaaa".toList w ≤ 2))
      = ["aaaa".toList, ['é']] ∧
    (FuzzyIndex.addWords FuzzyIndex.new [['é']]).searchFuzzy ['é'] 0 = [] ∧
    specEditDistance ['é'] ['é'] = 0 := by
  refine ⟨by decide, by decide, by decide, by simp [specEditDistance]⟩

/-- C2: in every tree produced by any sequence of insertions into a
fresh index, every child stored under key `d` is at `levenshtein`
distance exactly `d` (the repository's distance function, cited by the
claim) from its parent's word, recursively. -/
theorem metric_invariant_all_orders (words : List (List Char)) :
    (FuzzyIndex.addWords FuzzyIndex.new words).WellKeyed :=
  FuzzyIndex.WellKeyed.addWords words FuzzyIndex.WellKeyed.newIndex

/-- C4: with queue `[1,2,3]` and participant 1 having proposed
"apple", good votes from 2 and 3 reach the majority (2 of 3): the
queue rotates to `[2,3,1]`, the vote state resets to the default empty
state, and "apple" is committed so `search_match("apple", Exact)`
finds it. -/
theorem accept_scenario :
    acceptRoom.user_queue = [2, 3, 1] ∧
    acceptRoom.vote_state = VoteState.default ∧
    acceptRoom.index.map
        (fun idx => idx.searchMatch apple MatchMode.Exact) = some [apple] := by
  refine ⟨by decide, by decide, by decide⟩

/-- C6: same setup, bad votes from 2 and 3: the vote state resets, the
queue is untouched, and "apple" was never added — the room's index
finds nothing for it. -/
theorem reject_scenario :
    rejectRoom.user_queue = [1, 2, 3] ∧
    rejectRoom.vote_state = VoteState.default ∧
    rejectRoom.index.map
        (fun idx => idx.searchMatch apple MatchMode.Exact) = some [] := by
  refine ⟨by decide, by decide, by decide⟩

/-- C8: the claim says the batch `add_words` returns the subset of
words actually newly inserted, and that already-present words are not
inserted.  In the code `FuzzyIndex::add_words` (and the
`SharedFuzzyIndex` wrapper) return `()` and insert unconditionally: a
word equal to one already present is inserted again, as a child under
distance key 0, so the batch `["cat", "cat"]` stores "cat" twice. -/
theorem add_words_inserts_duplicates :
    (FuzzyIndex.addWords FuzzyIndex.new ["cat".toList, "cat".toList]).words
      = ["cat".toList, "cat".toList] ∧
    (FuzzyIndex.addWords FuzzyIndex.new ["cat".toList, "cat".toList]).root
      = some (.mk "cat".toList (.cons 0 (.mk "cat".toList .nil) .nil)) := by
  exact ⟨by decide, rfl⟩

/-- C9 counterexample: the claim says the concurrent wrapper's `load`
on a missing or corrupt backing file yields a fresh empty index rather
than an error.  `SharedFuzzyIndex::load` propagates both failures with
`?`: a missing file is an IO error and corrupt contents are a decode
error. -/
theorem shared_load_propagates_error :
    SharedFuzzyIndex.load none = .error IndexError.io ∧
    SharedFuzzyIndex.load (some [7]) = .error IndexError.decode := by
  exact ⟨rfl, rfl⟩

/-- C9 amended: the fallback lives one level up: whenever
`SharedFuzzyIndex::load` fails, `RoomState::load_words` swallows the
error and installs a fresh empty index. -/
theorem load_words_fallback (file : Option (List Nat)) (e : IndexError)
    (h : SharedFuzzyIndex.load file = .error e) :
    loadWordsIndex file = SharedFuzzyIndex.new := by
  unfold loadWordsIndex
  rw [h]

theorem load_words_fallback_witness :
    SharedFuzzyIndex.load none = .error IndexError.io ∧
    loadWordsIndex none = SharedFuzzyIndex.new :=
  ⟨rfl, load_words_fallback none IndexError.io rfl⟩

/-- `get_index_or_new` never changes the vote state. -/
theorem RoomState.vote_state_getIndexOrNew (r : RoomState)
    (file : Option (List Nat)) :
    (r.getIndexOrNew file).2.vote_state = r.vote_state := by
  unfold RoomState.getIndexOrNew
  split <;> rfl

theorem disjoint_insert_erase {G B : Finset ℕ} (uid : ℕ)
    (hd : Disjoint G B) : Disjoint (insert uid G) (B.erase uid) := by
  rw [Finset.disjoint_insert_left]
  exact ⟨Finset.not_mem_erase _ _, hd.mono_right (Finset.erase_subset _ _)⟩

theorem disjoint_erase_erase {G B : Finset ℕ} (uid : ℕ)
    (hd : Disjoint G B) : Disjoint (G.erase uid) (B.erase uid) :=
  hd.mono (Finset.erase_subset _ _) (Finset.erase_subset _ _)

/-- Step 3 of `vote` keeps the two ballot sets disjoint. -/
theorem disjoint_ballot {G B : Finset ℕ} (uid : ℕ) (good cancel : Bool)
    (hd : Disjoint G B) :
    Disjoint (ballotGood G uid good cancel) (ballotBad B uid good cancel) := by
  cases cancel with
  | true => exact disjoint_erase_erase uid hd
  | false =>
    cases good with
    | true => exact disjoint_insert_erase uid hd
    | false =>
      exact Finset.disjoint_insert_right.mpr
        ⟨Finset.not_mem_erase _ _, hd.mono_left (Finset.erase_subset _ _)⟩

/-- The vote state after any `vote` call is the old one (guard failed
or self-vote), the default reset (a resolution fired), or the old one
with the caster's ballot applied by the insert/erase discipline. -/
theorem vote_vote_state (file : Option (List Nat)) (r : RoomState)
    (uid : Nat) (good cancel : Bool) :
    (vote file r uid good cancel).vote_state = r.vote_state ∨
    (vote file r uid good cancel).vote_state = VoteState.default ∨
    ((vote file r uid good cancel).vote_state.good_users
        = ballotGood r.vote_state.good_users uid good cancel ∧
     (vote file r uid good cancel).vote_state.bad_users
        = ballotBad r.vote_state.bad_users uid good cancel) := by
  unfold vote
  split
  · split
    · left; rfl
    · cases cancel <;> cases good <;>
        (simp only [Bool.false_eq_true, if_false, if_true]
         split
         · right; left
           dsimp only
           rw [RoomState.vote_state_getIndexOrNew]
         · split
           · right; left; rfl
           · right; right; exact ⟨rfl, rfl⟩)
  · left; rfl

/-- C5 counterexample: the claim says a ballot is counted only when
the caster belongs to the turn-queue snapshot taken at proposal time.
User 99 is neither in the queue `[1,2,3]` nor in the snapshot, yet
their good ballot lands in the good tally: `vote` checks only that the
caster is not the proposer. -/
theorem outsider_ballot_counted :
    (99 ∉ proposedRoom.user_queue) ∧
    (99 ∉ proposedRoom.vote_state.message_builder.all_users) ∧
    (vote none proposedRoom 99 true false).vote_state.good_users = {99} := by
  refine ⟨by decide, by decide, by decide⟩

/-- C5 amended: a cast ballot is counted toward the tallies exactly
when a proposal is active and the caster is not the proposer —
membership in the turn-queue snapshot is not checked.  The proposer's
own ballot, in either direction (or cancel), is a complete no-op; any
other user's ballot updates the tallies by the insert/erase discipline
(stated here for the case where neither tally reaches the majority, so
that the updated sets survive into the resulting state). -/
theorem ballot_counting :
    (∀ (file : Option (List Nat)) (r : RoomState) (uid : Nat)
        (good cancel : Bool),
        r.vote_state.target_user = some uid →
        vote file r uid good cancel = r) ∧
    (∀ (file : Option (List Nat)) (r : RoomState) (uid : Nat)
        (good cancel : Bool),
        r.vote_state.vote_message.isSome = true →
        r.vote_state.target_word.isSome = true →
        r.vote_state.target_user ≠ some uid →
        (ballotGood r.vote_state.good_users uid good cancel).card
            < r.user_queue.length / 2 + 1 →
        (ballotBad r.vote_state.bad_users uid good cancel).card
            < r.user_queue.length / 2 + 1 →
        (vote file r uid good cancel).vote_state.good_users
            = ballotGood r.vote_state.good_users uid good cancel ∧
        (vote file r uid good cancel).vote_state.bad_users
            = ballotBad r.vote_state.bad_users uid good cancel) := by
  constructor
  · intro file r uid good cancel h
    unfold vote
    split
    · simp [h]
    · rfl
  · intro file r uid good cancel hm hw hp hgc hbc
    obtain ⟨mid, hmid⟩ := Option.isSome_iff_exists.mp hm
    obtain ⟨word, hword⟩ := Option.isSome_iff_exists.mp hw
    unfold vote
    simp only [hmid, hword]
    rw [if_neg hp]
    simp only [ballotGood, ballotBad] at hgc hbc
    cases cancel <;> cases good <;>
      (simp at hgc hbc
       simp only [Bool.false_eq_true, if_false, if_true]
       split
       case isTrue hcond => exfalso; simp at hcond; omega
       case isFalse =>
         split
         case isTrue hcond => exfalso; simp at hcond; omega
         case isFalse => exact ⟨rfl, rfl⟩)

theorem ballot_counting_witness :
    (proposedRoom.vote_state.target_user ≠ some 99) ∧
    ((vote none proposedRoom 99 true false).vote_state.good_users
        = ballotGood proposedRoom.vote_state.good_users 99 true false) :=
  ⟨by decide,
    (ballot_counting.2 none proposedRoom 99 true false (by decide) (by decide)
      (by decide) (by decide) (by decide)).1⟩

/-- C7: every `vote` transition preserves disjointness of the good and
bad ballot sets (casting on one side erases the caster from the other;
cancel erases from both; resolutions reset both to empty), and in the
concrete good-then-bad scenario participant 2 ends with exactly one
ballot, on the bad side. -/
theorem ballot_exclusivity :
    (∀ (file : Option (List Nat)) (r : RoomState) (uid : Nat)
        (good cancel : Bool),
        Disjoint r.vote_state.good_users r.vote_state.bad_users →
        Disjoint (vote file r uid good cancel).vote_state.good_users
          (vote file r uid good cancel).vote_state.bad_users) ∧
    goodThenBadRoom.vote_state.good_users = ∅ ∧
    goodThenBadRoom.vote_state.bad_users = {2} := by
  refine ⟨?_, by decide, by decide⟩
  intro file r uid good cancel hd
  rcases vote_vote_state file r uid good cancel with h | h | h
  · rw [h]; exact hd
  · rw [h]; simp [VoteState.default]
  · rw [h.1, h.2]; exact disjoint_ballot uid good cancel hd

theorem ballot_exclusivity_witness :
    Disjoint proposedRoom.vote_state.good_users
      proposedRoom.vote_state.bad_users ∧
    Disjoint (vote none proposedRoom 2 true false).vote_state.good_users
      (vote none proposedRoom 2 true false).vote_state.bad_users :=
  ⟨by decide, ballot_exclusivity.1 none proposedRoom 2 true false (by decide)⟩

/-- C10: saving the index holding "cat", "cats", "dog" and loading the
produced bytes yields an index whose `search_fuzzy` and `search_match`
agree with the original on every query, bound and mode (the loaded
index is equal to the saved one).  The byte format itself is the
external `bincode` codec, modelled here by the executable
`encode`/`decode` pair above. -/
theorem save_load_roundtrip (q : List Char) (k : Nat) (mode : MatchMode) :
    (FuzzyIndex.load (some catsIdx.save)).map
        (fun idx => idx.searchFuzzy q k) = .ok (catsIdx.searchFuzzy q k) ∧
    (FuzzyIndex.load (some catsIdx.save)).map
        (fun idx => idx.searchMatch q mode) = .ok (catsIdx.searchMatch q mode) := by
  have h : FuzzyIndex.load (some catsIdx.save) = .ok catsIdx := rfl
  rw [h]
  exact ⟨rfl, rfl⟩

end Shiritori
